import Mathlib

/-!
Verification of the chunked backup/restore utility (backup.py, restore.py).

The Python source is shallowly embedded: file contents are lists of bytes
(`List Nat`), chunk files are lists of chunks, file names are character lists
or strings, and the uploader thread is a state machine driven by an explicit
event trace.  Every definition mirrors the corresponding source function.
-/

/-! ## Configuration constants (backup.py lines 30-33) -/

/-- backup.py line 31: `CHUNK_SIZE_MB = 50`. -/
def CHUNK_SIZE_MB : Nat := 50

/-- backup.py line 32: `CHUNK_SIZE_BYTES = CHUNK_SIZE_MB * 1024 * 1024`. -/
def CHUNK_SIZE_BYTES : Nat := CHUNK_SIZE_MB * 1024 * 1024

/-! ## Chunker: `split_file` (backup.py lines 188-234) and
`reassemble_chunks` (restore.py lines 135-168).

`split_file` reads the source file `chunkSize` bytes at a time; every
non-empty read becomes one chunk, and the loop stops at the first empty read
(which also happens immediately when `chunkSize = 0`, since Python's
`f.read(0)` returns an empty byte string). -/

/-- Byte contents of the chunk files produced by `split_file`
(backup.py lines 210-228), in creation order. -/
def split_file (chunkSize : Nat) (content : List Nat) : List (List Nat) :=
  if h : chunkSize = 0 ∨ content = [] then []
  else content.take chunkSize :: split_file chunkSize (content.drop chunkSize)
termination_by content.length
decreasing_by
  simp only [List.length_drop]
  push_neg at h
  have h1 : 0 < chunkSize := Nat.pos_of_ne_zero h.1
  have h2 : 0 < content.length := List.length_pos.mpr h.2
  omega

/-- Byte content written by `reassemble_chunks` (restore.py lines 156-163):
the chunk files are concatenated in the caller-supplied order. -/
def reassemble_chunks (chunks : List (List Nat)) : List Nat :=
  chunks.flatten

theorem split_file_nil (chunkSize : Nat) : split_file chunkSize [] = [] := by
  rw [split_file]
  simp

theorem split_file_of_ne (chunkSize : Nat) (content : List Nat)
    (h1 : chunkSize ≠ 0) (h2 : content ≠ []) :
    split_file chunkSize content
      = content.take chunkSize :: split_file chunkSize (content.drop chunkSize) := by
  rw [split_file]
  simp [h1, h2]

theorem split_file_flatten (chunkSize : Nat) (hC : 0 < chunkSize) (content : List Nat) :
    (split_file chunkSize content).flatten = content := by
  induction content using split_file.induct chunkSize with
  | case1 content h =>
    rcases h with h | h
    · omega
    · rw [h, split_file_nil]
      rfl
  | case2 content h ih =>
    push_neg at h
    rw [split_file_of_ne _ _ h.1 h.2, List.flatten_cons, ih, List.take_append_drop]

theorem split_file_length (chunkSize : Nat) (hC : 0 < chunkSize) (content : List Nat) :
    (split_file chunkSize content).length = (content.length + chunkSize - 1) / chunkSize := by
  induction content using split_file.induct chunkSize with
  | case1 content h =>
    rcases h with h | h
    · omega
    · subst h
      rw [split_file_nil]
      simp only [List.length_nil]
      rw [Nat.div_eq_of_lt (by omega)]
  | case2 content h ih =>
    push_neg at h
    have hpos : 0 < content.length := List.length_pos.mpr h.2
    rw [split_file_of_ne _ _ h.1 h.2]
    simp only [List.length_cons, ih, List.length_drop]
    by_cases hle : content.length ≤ chunkSize
    · have e1 : content.length - chunkSize = 0 := by omega
      have e2 : (0 + chunkSize - 1) / chunkSize = 0 := Nat.div_eq_of_lt (by omega)
      have e3 : (content.length + chunkSize - 1) / chunkSize = 1 :=
        @Nat.div_eq_of_lt_le 1 chunkSize (content.length + chunkSize - 1)
          (by omega) (by omega)
      rw [e1, e2, e3]
    · have e1 : content.length + chunkSize - 1
          = (content.length - chunkSize + chunkSize - 1) + chunkSize := by omega
      rw [e1, Nat.add_div_right _ hC]

theorem split_file_get_mid (chunkSize : Nat) (hC : 0 < chunkSize) (content : List Nat) :
    ∀ i, i + 1 < (split_file chunkSize content).length →
      (split_file chunkSize content)[i]?.map List.length = some chunkSize := by
  induction content using split_file.induct chunkSize with
  | case1 content h =>
    intro i hi
    rcases h with h | h
    · omega
    · rw [h, split_file_nil] at hi
      simp at hi
  | case2 content h ih =>
    push_neg at h
    intro i hi
    rw [split_file_of_ne _ _ h.1 h.2] at hi ⊢
    cases i with
    | zero =>
      have htl : split_file chunkSize (content.drop chunkSize) ≠ [] := by
        intro hnil
        rw [hnil] at hi
        simp at hi
      have hdrop : content.drop chunkSize ≠ [] := by
        intro hnil
        exact htl (by rw [hnil, split_file_nil])
      have hlen : chunkSize < content.length := by
        have := List.length_pos.mpr hdrop
        simp only [List.length_drop] at this
        omega
      simp only [List.getElem?_cons_zero, Option.map_some']
      rw [List.length_take]
      congr 1
      omega
    | succ j =>
      simp only [List.length_cons] at hi
      simp only [List.getElem?_cons_succ]
      exact ih j (by omega)

theorem split_file_get_last (chunkSize : Nat) (hC : 0 < chunkSize) (content : List Nat) :
    content ≠ [] →
      (split_file chunkSize content)[(split_file chunkSize content).length - 1]?.map
          List.length
        = some (content.length - ((split_file chunkSize content).length - 1) * chunkSize) := by
  induction content using split_file.induct chunkSize with
  | case1 content h =>
    intro h2
    rcases h with h | h
    · omega
    · exact absurd h h2
  | case2 content h ih =>
    intro _
    push_neg at h
    rw [split_file_of_ne _ _ h.1 h.2]
    by_cases hdrop : content.drop chunkSize = []
    · have hle : content.length ≤ chunkSize := by
        have : (content.drop chunkSize).length = 0 := by rw [hdrop]; rfl
        simp only [List.length_drop] at this
        omega
      have hpos : 0 < content.length := List.length_pos.mpr h.2
      rw [hdrop, split_file_nil]
      simp only [List.length_cons, List.length_nil, Nat.zero_add, Nat.sub_self,
        List.getElem?_cons_zero, Option.map_some']
      rw [List.length_take]
      congr 1
      omega
    · have htl : split_file chunkSize (content.drop chunkSize) ≠ [] := by
        rw [split_file_of_ne _ _ h.1 hdrop]
        exact List.cons_ne_nil _ _
      have hLpos : 0 < (split_file chunkSize (content.drop chunkSize)).length :=
        List.length_pos.mpr htl
      have hlen : chunkSize < content.length := by
        have := List.length_pos.mpr hdrop
        simp only [List.length_drop] at this
        omega
      have ihres := ih hdrop
      set L := (split_file chunkSize (content.drop chunkSize)).length with hL
      simp only [List.length_cons]
      have e1 : L + 1 - 1 = (L - 1) + 1 := by omega
      rw [e1]
      simp only [List.getElem?_cons_succ]
      rw [ihres]
      congr 1
      simp only [List.length_drop]
      rw [show (L - 1 + 1) * chunkSize = (L - 1) * chunkSize + chunkSize by ring]
      generalize (L - 1) * chunkSize = t
      omega

/-- C1: For every file content and the fixed chunk size C = 52,428,800 bytes,
splitting the file with `split_file` and reassembling the resulting chunks in
ascending sequence order with `reassemble_chunks` yields a byte stream
identical to the original (in particular for every file size, covering
0, 1, C-1, C, C+1, 10C and 10C+1). -/
theorem split_reassemble_roundtrip (content : List Nat) :
    reassemble_chunks (split_file CHUNK_SIZE_BYTES content) = content :=
  split_file_flatten CHUNK_SIZE_BYTES (by decide) content

/-- C2: For every chunk size `chunkSize > 0` (in the program, the constant
`CHUNK_SIZE_BYTES = 52,428,800`) and every file content of `N` bytes,
`split_file` produces exactly `ceil(N / chunkSize) = (N + chunkSize - 1) / chunkSize`
chunks (zero for an empty file), every chunk except possibly the last has
length exactly `chunkSize`, and the last chunk has length
`N - (count - 1) * chunkSize`. -/
theorem split_file_chunk_layout (chunkSize : Nat) (content : List Nat) (hC : 0 < chunkSize) :
    (split_file chunkSize content).length = (content.length + chunkSize - 1) / chunkSize
    ∧ (∀ i, i + 1 < (split_file chunkSize content).length →
        (split_file chunkSize content)[i]?.map List.length = some chunkSize)
    ∧ (content ≠ [] →
        (split_file chunkSize content)[(split_file chunkSize content).length - 1]?.map
            List.length
          = some (content.length - ((split_file chunkSize content).length - 1) * chunkSize)) :=
  ⟨split_file_length chunkSize hC content,
   split_file_get_mid chunkSize hC content,
   split_file_get_last chunkSize hC content⟩

/-- Witness for C2 at chunk size 2 and content `[7, 8, 9]`: two chunks,
the first of length exactly 2, the last of length 3 - 1 * 2 = 1. -/
theorem split_file_chunk_layout_witness :
    (split_file 2 [7, 8, 9]).length = (([7, 8, 9] : List Nat).length + 2 - 1) / 2
    ∧ (split_file 2 [7, 8, 9])[0]?.map List.length = some 2
    ∧ (split_file 2 [7, 8, 9])[(split_file 2 [7, 8, 9]).length - 1]?.map List.length
        = some (([7, 8, 9] : List Nat).length
            - ((split_file 2 [7, 8, 9]).length - 1) * 2) := by
  obtain ⟨h1, h2, h3⟩ := split_file_chunk_layout 2 [7, 8, 9] (by decide)
  exact ⟨h1, h2 0 (by rw [h1]; decide), h3 (by decide)⟩

/-! ## Chunk names (backup.py lines 217-219) and lexicographic ordering
(restore.py lines 123-130).

backup.py line 218 creates `f"{source_file.name}.part{chunk_num:03d}"`, with
`chunk_num` starting at 1 (line 202) and incremented per chunk (line 228).
restore.py line 124 sorts the chunk file names with `sorted(...)`, i.e.
lexicographically by character code points.  Names are modelled as `List Char`
and the decimal digits of `{n:03d}` via `Nat.digits`. -/

/-- Big-endian decimal digit values of `n`, as Python's `str(n)` prints them. -/
def dec_digits (n : Nat) : List Nat :=
  if n = 0 then [0] else (Nat.digits 10 n).reverse

/-- Digit values of Python's `f"{n:03d}"`: the decimal digits of `n`,
left-padded with zeros to a minimum width of 3. -/
def pad3 (n : Nat) : List Nat :=
  List.replicate (3 - (dec_digits n).length) 0 ++ dec_digits n

/-- The character for one decimal digit value (code point 48 is `0`). -/
def digit_char (d : Nat) : Char := Char.ofNat (48 + d)

/-- The literal `.part` infix of every chunk file name. -/
def part_marker : List Char := ['.', 'p', 'a', 'r', 't']

/-- backup.py line 218: chunk file name `<original-name>.part<NNN>`. -/
def chunk_name (base : List Char) (n : Nat) : List Char :=
  base ++ part_marker ++ (pad3 n).map digit_char

/-- backup.py lines 202-228 with the chunk counter made explicit: the chunks
produced from `content` when the next sequence number is `num`, each paired
with its file name. -/
def split_file_from (chunkSize : Nat) (base : List Char) (num : Nat) (content : List Nat) :
    List (List Char × List Nat) :=
  if h : chunkSize = 0 ∨ content = [] then []
  else (chunk_name base num, content.take chunkSize)
        :: split_file_from chunkSize base (num + 1) (content.drop chunkSize)
termination_by content.length
decreasing_by
  simp only [List.length_drop]
  push_neg at h
  have h1 : 0 < chunkSize := Nat.pos_of_ne_zero h.1
  have h2 : 0 < content.length := List.length_pos.mpr h.2
  omega

/-- The named chunk list produced by one `split_file` call: the counter
starts at 1 (backup.py line 202). -/
def split_file_named (chunkSize : Nat) (base : List Char) (content : List Nat) :
    List (List Char × List Nat) :=
  split_file_from chunkSize base 1 content

theorem pad3_eq_of_le_999 (n : Nat) (h9 : n ≤ 999) :
    pad3 n = [n / 100, n / 10 % 10, n % 10] := by
  rcases Nat.eq_zero_or_pos n with h0 | h0
  · subst h0
    decide
  by_cases hA : n < 10
  · have e1 : Nat.digits 10 n = [n % 10] := by
      rw [Nat.digits_def' (by norm_num) h0, show n / 10 = 0 by omega, Nat.digits_zero]
    have e2 : n / 100 = 0 := by omega
    have e3 : n / 10 % 10 = 0 := by omega
    simp [pad3, dec_digits, Nat.pos_iff_ne_zero.mp h0, e1, e2, e3]
  by_cases hB : n < 100
  · have e1 : Nat.digits 10 n = [n % 10, n / 10] := by
      rw [Nat.digits_def' (by norm_num) h0,
        Nat.digits_def' (by norm_num) (show 0 < n / 10 by omega),
        show n / 10 / 10 = 0 by omega, Nat.digits_zero,
        Nat.mod_eq_of_lt (show n / 10 < 10 by omega)]
    have e2 : n / 100 = 0 := by omega
    simp [pad3, dec_digits, Nat.pos_iff_ne_zero.mp h0, e1, e2]
    omega
  · have e1 : Nat.digits 10 n = [n % 10, n / 10 % 10, n / 100] := by
      rw [Nat.digits_def' (by norm_num) h0,
        Nat.digits_def' (by norm_num) (show 0 < n / 10 by omega),
        show n / 10 / 10 = n / 100 by omega,
        Nat.digits_def' (by norm_num) (show 0 < n / 100 by omega),
        show n / 100 / 10 = 0 by omega, Nat.digits_zero,
        Nat.mod_eq_of_lt (show n / 100 < 10 by omega)]
    simp [pad3, dec_digits, Nat.pos_iff_ne_zero.mp h0, e1]

theorem pad3_length_ge_three (n : Nat) : 3 ≤ (pad3 n).length := by
  simp only [pad3, List.length_append, List.length_replicate]
  omega

theorem digit_char_lt_iff : ∀ a, a < 10 → ∀ b, b < 10 →
    (digit_char a < digit_char b ↔ a < b) := by decide

theorem digit_char_eq_iff : ∀ a, a < 10 → ∀ b, b < 10 →
    (digit_char a = digit_char b ↔ a = b) := by decide

theorem lex_of_append_common (p : List Char) (l1 l2 : List Char) :
    List.Lex (· < ·) (p ++ l1) (p ++ l2) ↔ List.Lex (· < ·) l1 l2 := by
  induction p with
  | nil => rfl
  | cons x p ih =>
    simp only [List.cons_append]
    rw [List.Lex.cons_iff]
    exact ih

theorem lex_triple_iff (x1 x2 x3 y1 y2 y3 : Char) :
    List.Lex (· < ·) [x1, x2, x3] [y1, y2, y3] ↔
      x1 < y1 ∨ (x1 = y1 ∧ (x2 < y2 ∨ (x2 = y2 ∧ x3 < y3))) := by
  constructor
  · intro h
    cases h with
    | rel h => exact Or.inl h
    | cons h =>
      refine Or.inr ⟨rfl, ?_⟩
      cases h with
      | rel h => exact Or.inl h
      | cons h =>
        refine Or.inr ⟨rfl, ?_⟩
        cases h with
        | rel h => exact h
        | cons h => cases h
  · rintro (h | ⟨rfl, h | ⟨rfl, h⟩⟩)
    · exact List.Lex.rel h
    · exact List.Lex.cons (List.Lex.rel h)
    · exact List.Lex.cons (List.Lex.cons (List.Lex.rel h))

theorem chunk_name_lt (base : List Char) {i j : Nat} (hij : i < j) (hj : j ≤ 999) :
    List.Lex (· < ·) (chunk_name base i) (chunk_name base j) := by
  have hi9 : i ≤ 999 := by omega
  unfold chunk_name
  rw [lex_of_append_common, pad3_eq_of_le_999 i hi9, pad3_eq_of_le_999 j hj]
  simp only [List.map_cons, List.map_nil]
  rw [lex_triple_iff]
  have d1 : i / 100 < 10 := by omega
  have d2 : i / 10 % 10 < 10 := by omega
  have d3 : i % 10 < 10 := by omega
  have d4 : j / 100 < 10 := by omega
  have d5 : j / 10 % 10 < 10 := by omega
  have d6 : j % 10 < 10 := by omega
  rcases Nat.lt_trichotomy (i / 100) (j / 100) with h1 | h1 | h1
  · exact Or.inl ((digit_char_lt_iff _ d1 _ d4).mpr h1)
  · refine Or.inr ⟨(digit_char_eq_iff _ d1 _ d4).mpr h1, ?_⟩
    rcases Nat.lt_trichotomy (i / 10 % 10) (j / 10 % 10) with h2 | h2 | h2
    · exact Or.inl ((digit_char_lt_iff _ d2 _ d5).mpr h2)
    · refine Or.inr ⟨(digit_char_eq_iff _ d2 _ d5).mpr h2, ?_⟩
      exact (digit_char_lt_iff _ d3 _ d6).mpr (by omega)
    · omega
  · omega

theorem split_file_from_names (chunkSize : Nat) (base : List Char) (content : List Nat) :
    ∀ num,
      (split_file_from chunkSize base num content).map Prod.fst
        = (List.range (split_file chunkSize content).length).map
            (fun i => chunk_name base (num + i)) := by
  induction content using split_file.induct chunkSize with
  | case1 content h =>
    intro num
    rcases h with h | h
    · rw [split_file_from, split_file]
      simp [h]
    · rw [h, split_file_from, split_file]
      simp
  | case2 content h ih =>
    intro num
    push_neg at h
    rw [split_file_from, split_file]
    simp only [h.1, h.2, false_or, dite_false, or_self, List.map_cons, List.length_cons]
    rw [List.range_succ_eq_map]
    simp only [List.map_cons, List.map_map]
    congr 1
    rw [ih (num + 1)]
    apply List.map_congr_left
    intro a _
    simp only [Function.comp_apply, Nat.succ_eq_add_one]
    rw [show num + 1 + a = num + (a + 1) by omega]

/-- C3: `split_file` names its chunks `<original-name>.part<NNN>` with `NNN`
the 1-based sequence number zero-padded to at least 3 digits; the names are
strictly increasing in creation order, and for chunk counts up to 999 the
name list is strictly sorted in the lexicographic character order used by
restore's `sorted(...)` call, so sorting the names lexicographically yields
exactly ascending sequence order. -/
theorem chunk_names_ordered (chunkSize : Nat) (base : List Char) (content : List Nat)
    (hcount : (split_file chunkSize content).length ≤ 999) :
    (split_file_named chunkSize base content).map Prod.fst
        = (List.range (split_file chunkSize content).length).map
            (fun i => chunk_name base (i + 1))
    ∧ List.Pairwise (fun a b => List.Lex (· < ·) a b)
        ((split_file_named chunkSize base content).map Prod.fst)
    ∧ (∀ n, 3 ≤ (pad3 n).length) := by
  have hnames := split_file_from_names chunkSize base content 1
  refine ⟨?_, ?_, pad3_length_ge_three⟩
  · rw [split_file_named, hnames]
    apply List.map_congr_left
    intro a _
    rw [show 1 + a = a + 1 by omega]
  · rw [split_file_named, hnames, List.pairwise_map]
    refine (List.pairwise_lt_range _).imp_of_mem ?_
    intro a b ha hb hab
    have hbmem : b < (split_file chunkSize content).length := List.mem_range.mp hb
    exact chunk_name_lt base (by omega) (by omega)

/-- Witness for C3: splitting a 3-byte file with chunk size 2 gives two
chunks whose names are strictly ordered. -/
theorem chunk_names_ordered_witness :
    (split_file 2 [7, 8, 9]).length ≤ 999
    ∧ List.Pairwise (fun a b => List.Lex (· < ·) a b)
        ((split_file_named 2 ['f'] [7, 8, 9]).map Prod.fst) := by
  have hc : (split_file 2 [7, 8, 9]).length ≤ 999 := by
    rw [split_file_length 2 (by decide) [7, 8, 9]]
    decide
  exact ⟨hc, (chunk_names_ordered 2 ['f'] [7, 8, 9] hc).2.1⟩

/-! ## Remote folder path derivation (backup.py lines 400-405) and local
path reconstruction (restore.py lines 228-258).

backup.py computes `[p.lower() for p in source_parts].index('downloads')`
and takes every segment from that index on, falling back to the leaf name.
restore.py checks `repo_parts[0].lower() == "downloads"` and, if so, places
the result under the user's `Downloads` folder with the remaining segments.
Python's `str.lower()` is modelled by mapping `Char.toLower`. -/

/-- Python's `str.lower()` on a path segment. -/
def py_lower (s : String) : String := String.mk (s.data.map Char.toLower)

/-- Python's `[p.lower() for p in parts].index('downloads')`
(backup.py line 402), with the `ValueError` of a missing anchor
modelled as `none`. -/
def find_downloads_index : List String → Option Nat
  | [] => none
  | p :: rest =>
    if py_lower p == "downloads" then some 0
    else (find_downloads_index rest).map (· + 1)

/-- backup.py lines 400-405: the remote folder parts are every source
segment from the `Downloads` anchor onward, or just the leaf folder name
when the anchor is absent. -/
def derive_folder_parts (sourceParts : List String) : List String :=
  match find_downloads_index sourceParts with
  | some i => sourceParts.drop i
  | none => [sourceParts.getLastD ""]

/-- restore.py lines 229-255 with no user suffix: the restored location,
relative to the user's home directory.  When the first repo segment lowers
to `downloads`, the base is `home/Downloads` and `dest_parts` is
`repo_parts[1:]`; otherwise the base is home and `dest_parts` is the whole
repo path.  The code then walks `dest_parts[:-1]` and finally appends
`folder_name = repo_parts[-1]` — the last segment of the FULL repo path —
so a single-segment repo path `["Downloads"]` reconstructs
`home/Downloads/Downloads`. -/
def restore_local_parts (repoParts : List String) : List String :=
  if py_lower (repoParts.headD "") == "downloads" then
    "Downloads" :: ((repoParts.drop 1).dropLast ++ [repoParts.getLastD ""])
  else
    repoParts.dropLast ++ [repoParts.getLastD ""]

theorem find_downloads_index_append (pre : List String) (anchor : String)
    (rest : List String) (hanch : (py_lower anchor == "downloads") = true)
    (hpre : ∀ p ∈ pre, (py_lower p == "downloads") = false) :
    find_downloads_index (pre ++ anchor :: rest) = some pre.length := by
  induction pre with
  | nil =>
    simp only [List.nil_append, find_downloads_index, hanch, if_true, List.length_nil]
  | cons x pre ih =>
    have hx : (py_lower x == "downloads") = false := hpre x (List.mem_cons_self x pre)
    simp only [List.cons_append, find_downloads_index, hx, Bool.false_eq_true, if_false,
      List.length_cons, List.append_eq]
    rw [ih (fun p hp => hpre p (List.mem_cons_of_mem x hp))]
    rfl

theorem dropLast_append_getLastD (l : List String) (hl : l ≠ []) (d : String) :
    l.dropLast ++ [l.getLastD d] = l := by
  induction l generalizing d with
  | nil => exact absurd rfl hl
  | cons x xs ih =>
    cases xs with
    | nil => rfl
    | cons y ys =>
      rw [List.dropLast_cons₂, List.getLastD_cons, List.cons_append,
        ih (List.cons_ne_nil y ys) x]

/-- C4 (amended): For every source path containing a segment that
lowercases to `downloads` (and none before it) with at least one further
segment after the anchor, the remote folder parts derived by backup are the
anchor segment followed by everything after it; restore then places those
parts back under the `Downloads` root, and the restored path relative to
that root equals the source path relative to the anchor.  When the anchor
is the final segment of the source path (nothing after it), the round trip
fails in the program: restore appends `repo_parts[-1]` — the anchor name
itself — after the `Downloads` base, reconstructing `Downloads/Downloads`
instead of the `Downloads` root. -/
theorem downloads_anchor_roundtrip (pre rest : List String) (anchor : String)
    (hanch : (py_lower anchor == "downloads") = true)
    (hpre : ∀ p ∈ pre, (py_lower p == "downloads") = false)
    (hrest : rest ≠ []) :
    derive_folder_parts (pre ++ anchor :: rest) = anchor :: rest
    ∧ restore_local_parts (anchor :: rest) = "Downloads" :: rest
    ∧ (pre ++ anchor :: rest).drop (pre.length + 1) = rest := by
  refine ⟨?_, ?_, ?_⟩
  · rw [derive_folder_parts, find_downloads_index_append pre anchor rest hanch hpre]
    simp only [List.drop_left]
  · rcases rest with _ | ⟨r, rs⟩
    · exact absurd rfl hrest
    · rw [restore_local_parts]
      simp only [List.headD_cons, hanch, if_true, List.drop_succ_cons, List.drop_zero,
        List.getLastD_cons]
      congr 1
      have e := dropLast_append_getLastD (r :: rs) (List.cons_ne_nil r rs) anchor
      rw [List.getLastD_cons] at e
      exact e
  · rw [← List.drop_drop, List.drop_left]
    simp only [List.drop_succ_cons, List.drop_zero]

/-- Witness for C4 on the path `C:/Users/Dan/Downloads/HD5s/H5`. -/
theorem downloads_anchor_roundtrip_witness :
    derive_folder_parts ["C:", "Users", "Dan", "Downloads", "HD5s", "H5"]
        = ["Downloads", "HD5s", "H5"]
    ∧ restore_local_parts ["Downloads", "HD5s", "H5"] = ["Downloads", "HD5s", "H5"]
    ∧ (["C:", "Users", "Dan", "Downloads", "HD5s", "H5"] : List String).drop 4
        = ["HD5s", "H5"] := by
  have h := downloads_anchor_roundtrip ["C:", "Users", "Dan"] ["HD5s", "H5"] "Downloads"
    (by decide) (by decide) (by decide)
  exact ⟨h.1, h.2.1, h.2.2⟩

/-- Counterexample to C4 as stated: for the source path
`C:/Users/Dan/Downloads` — whose final segment IS the anchor — backup
derives the remote folder `["Downloads"]`, but restore reconstructs
`home/Downloads/Downloads` (it appends `repo_parts[-1]`, here the anchor
name itself, after the `Downloads` base), so the restored path relative to
the `Downloads` root is `["Downloads"]` while the source path relative to
the anchor is `[]`: the round trip is not the identity there. -/
theorem downloads_anchor_roundtrip_counterexample :
    derive_folder_parts ["C:", "Users", "Dan", "Downloads"] = ["Downloads"]
    ∧ restore_local_parts ["Downloads"] = ["Downloads", "Downloads"]
    ∧ (restore_local_parts ["Downloads"]).drop 1 = ["Downloads"]
    ∧ (["C:", "Users", "Dan", "Downloads"] : List String).drop 4 = []
    ∧ (restore_local_parts ["Downloads"]).drop 1
        ≠ (["C:", "Users", "Dan", "Downloads"] : List String).drop 4 := by
  decide

/-! ## The uploader thread (backup.py lines 466-592) and run-level cleanup
(backup.py lines 706-721).

The background `uploader_thread` drains the transfer queue.  It is embedded
as a state machine driven by an explicit event trace: each loop iteration
either dequeues an item (with the current wall-clock reading, the state of
the completion flag, and the outcome a push would have), hits the 0.5 s
queue timeout, or sees the `None` sentinel.  Wall-clock readings are natural
numbers (`time.time()` values); `last_push_time` starts at `0`
(backup.py line 470).  After the loop exits, the final-flush block
(lines 576-589) pushes any remaining batch inside `try ... except: pass`.

The `deletedSources` field records source files deleted by the thread; the
source never deletes a staged file (the `is_temp` component of the dequeued
tuple is unpacked on line 481 but never used), so no transition touches it.
Run-level cleanup: `process_and_upload_files` raises `BackupError` when
`upload_error` is non-empty (line 713-714) — in that case the lines that
remove the temporary chunk folder (718-721) are never reached — and removes
the temporary chunk folder on the success path. -/

/-- One entry of the transfer queue (backup.py line 380):
`(actual_file_path, relative_path, is_temp)`. -/
structure TransferItem where
  src : String
  rel : String
  is_temp : Bool
deriving DecidableEq

/-- Observable state of the uploader thread: the accumulated batch of
relative paths, `last_push_time`, the `files_uploaded` counter, the
`upload_error` list, a count of push attempts, and the list of source files
the thread has deleted. -/
structure PusherState where
  batch : List String
  lastPush : Nat
  uploaded : Nat
  errors : List String
  pushAttempts : Nat
  deletedSources : List String
deriving DecidableEq

/-- Thread-start state: empty batch, `last_push_time = 0`
(backup.py lines 468-470). -/
def initPusherState : PusherState :=
  { batch := [], lastPush := 0, uploaded := 0, errors := [],
    pushAttempts := 0, deletedSources := [] }

/-- One iteration's environment: a dequeued item (with clock reading,
completion-flag state and push outcome), a `queue.Empty` timeout, or the
`None` sentinel. -/
inductive UpEvent where
  | item (it : TransferItem) (now : Nat) (complete : Bool) (pushOk : Bool)
  | timeout (now : Nat) (pushOk : Bool)
  | sentinel
deriving DecidableEq

/-- backup.py line 469: `batch_size = 20`. -/
def batch_size : Nat := 20

/-- backup.py line 471: `push_interval = 30`. -/
def push_interval : Nat := 30

/-- backup.py lines 505-509: the `should_push` condition computed after the
item has been appended to the batch. -/
def should_push (batchLen now lastPush : Nat) (complete : Bool) : Bool :=
  decide (batch_size ≤ batchLen)
    || (decide (push_interval ≤ now - lastPush) && decide (0 < batchLen))
    || complete

/-- One iteration of the drain loop (backup.py lines 474-574): the next
state and whether the loop continues. -/
def pusher_step (s : PusherState) : UpEvent → PusherState × Bool
  | UpEvent.item it now complete pushOk =>
    let s1 : PusherState :=
      { s with batch := s.batch ++ [it.rel], uploaded := s.uploaded + 1 }
    if should_push s1.batch.length now s1.lastPush complete then
      if pushOk then
        ({ s1 with
            batch := ([] : List String),
            lastPush := now,
            pushAttempts := s1.pushAttempts + 1 }, true)
      else
        ({ s1 with
            errors := s1.errors ++ ["Git push failed"],
            pushAttempts := s1.pushAttempts + 1 }, false)
    else
      (s1, true)
  | UpEvent.timeout now pushOk =>
    if decide (0 < s.batch.length) && decide (push_interval ≤ now - s.lastPush) then
      if pushOk then
        ({ s with
            batch := ([] : List String),
            lastPush := now,
            pushAttempts := s.pushAttempts + 1 }, true)
      else
        ({ s with pushAttempts := s.pushAttempts + 1 }, true)
    else
      (s, true)
  | UpEvent.sentinel => (s, false)

/-- The drain loop over an event trace; returns the state at loop exit and
the events that were never processed because the loop broke early. -/
def pusher_drain (s : PusherState) : List UpEvent → PusherState × List UpEvent
  | [] => (s, [])
  | e :: es =>
    match pusher_step s e with
    | (s1, true) => pusher_drain s1 es
    | (s1, false) => (s1, es)

/-- backup.py lines 576-589: the final flush after the loop.  The push and
its outcome are wrapped in `try ... except: pass`, so nothing observable
changes apart from the push being attempted; in particular no error is ever
recorded here, whatever `pushOk` is. -/
def final_flush (s : PusherState) (pushOk : Bool) : PusherState :=
  if 0 < s.batch.length then { s with pushAttempts := s.pushAttempts + 1 } else s

/-- The whole uploader thread on a trace: drain, then final flush. -/
def run_uploader (events : List UpEvent) (finalOk : Bool) : PusherState :=
  final_flush (pusher_drain initPusherState events).1 finalOk

/-- backup.py lines 713-721: the orchestrator raises `BackupError` with the
first recorded error if any (so the temp-chunk folder survives), and removes
the temporary chunk folder only on the success path.  Returns the raised
error (if any) and whether the temporary chunk folder was removed. -/
def backup_run_outcome (events : List UpEvent) (finalOk : Bool) :
    Option String × Bool :=
  match (run_uploader events finalOk).errors with
  | e :: _ => (some e, false)
  | [] => (none, true)

theorem should_push_iff (batchLen now lastPush : Nat) (complete : Bool) :
    should_push batchLen now lastPush complete = true ↔
      (batch_size ≤ batchLen ∨ (push_interval ≤ now - lastPush ∧ 0 < batchLen)
        ∨ complete = true) := by
  simp [should_push]
  tauto

theorem pusher_step_deletedSources (s : PusherState) (e : UpEvent) :
    (pusher_step s e).1.deletedSources = s.deletedSources := by
  cases e with
  | item it now complete pushOk =>
    dsimp only [pusher_step]
    split
    · split <;> rfl
    · rfl
  | timeout now pushOk =>
    dsimp only [pusher_step]
    split
    · split <;> rfl
    · rfl
  | sentinel => rfl

theorem pusher_drain_deletedSources (events : List UpEvent) :
    ∀ s : PusherState, (pusher_drain s events).1.deletedSources = s.deletedSources := by
  induction events with
  | nil => intro s; rfl
  | cons e es ih =>
    intro s
    have hds := pusher_step_deletedSources s e
    rw [pusher_drain]
    rcases hstep : pusher_step s e with ⟨s1, cont⟩
    rw [hstep] at hds
    cases cont
    · exact hds
    · rw [ih s1]
      exact hds

theorem final_flush_errors (s : PusherState) (ok : Bool) :
    (final_flush s ok).errors = s.errors := by
  rw [final_flush]
  split <;> rfl

theorem final_flush_deletedSources (s : PusherState) (ok : Bool) :
    (final_flush s ok).deletedSources = s.deletedSources := by
  rw [final_flush]
  split <;> rfl

/-- C5 (amended): a commit/push failure at any push performed while
processing a dequeued item — triggered by the batch threshold, the elapsed
interval, or the completion flag — records `Git push failed` and breaks the
drain loop immediately (the remaining events are left unprocessed); a
failure of the interval-triggered push in the `queue.Empty` timeout path is
swallowed silently, the batch is retained, and draining continues; and the
final flush after the loop never records an error, whatever its push
outcome — so a final-flush failure is not fatal to the run. -/
theorem uploader_failure_asymmetry (s : PusherState) (it : TransferItem)
    (now : Nat) (complete : Bool) (es : List UpEvent) :
    (should_push (s.batch.length + 1) now s.lastPush complete = true →
      pusher_drain s (UpEvent.item it now complete false :: es)
        = ({ s with
              batch := s.batch ++ [it.rel],
              uploaded := s.uploaded + 1,
              errors := s.errors ++ ["Git push failed"],
              pushAttempts := s.pushAttempts + 1 }, es))
    ∧ (0 < s.batch.length → push_interval ≤ now - s.lastPush →
      pusher_drain s (UpEvent.timeout now false :: es)
        = pusher_drain { s with pushAttempts := s.pushAttempts + 1 } es)
    ∧ (∀ ok : Bool, (final_flush s ok).errors = s.errors) := by
  refine ⟨?_, ?_, fun ok => final_flush_errors s ok⟩
  · intro hp
    rw [pusher_drain]
    have hlen : (s.batch ++ [it.rel]).length = s.batch.length + 1 := by
      simp
    dsimp only [pusher_step]
    rw [hlen, hp]
    rfl
  · intro hb ht
    rw [pusher_drain]
    dsimp only [pusher_step]
    rw [decide_eq_true hb, decide_eq_true ht]
    rfl

/-- Witness for C5: a state with one staged item and clock reading 40; the
item-path push fails fatally, the timeout-path push failure is swallowed,
and the final flush leaves the error list unchanged. -/
theorem uploader_failure_asymmetry_witness :
    pusher_drain
        { batch := ["x"], lastPush := 0, uploaded := 1, errors := [],
          pushAttempts := 0, deletedSources := [] }
        [UpEvent.item ⟨"a", "b", true⟩ 40 false false]
      = ({ batch := ["x", "b"], lastPush := 0, uploaded := 2,
            errors := ["Git push failed"], pushAttempts := 1,
            deletedSources := [] }, [])
    ∧ pusher_drain
        { batch := ["x"], lastPush := 0, uploaded := 1, errors := [],
          pushAttempts := 0, deletedSources := [] }
        [UpEvent.timeout 40 false]
      = pusher_drain
          { batch := ["x"], lastPush := 0, uploaded := 1, errors := [],
            pushAttempts := 1, deletedSources := [] } []
    ∧ (final_flush
        { batch := ["x"], lastPush := 0, uploaded := 1, errors := [],
          pushAttempts := 0, deletedSources := [] } true).errors = [] := by
  have h := uploader_failure_asymmetry
    { batch := ["x"], lastPush := 0, uploaded := 1, errors := [],
      pushAttempts := 0, deletedSources := [] }
    ⟨"a", "b", true⟩ 40 false []
  exact ⟨h.1 (by decide), h.2.1 (by decide) (by decide), h.2.2 true⟩

/-- Counterexample to C5 as stated: one item is staged at clock reading 10
(no trigger fires, so it stays in the batch), the loop then exits and the
final flush is attempted with a failing push (`finalOk = false`).  The claim
says this mandatory final flush failure is fatal and recorded, but the code
wraps it in `except: pass`: the push is attempted (`pushAttempts = 1`), no
error is recorded, and the run is reported successful. -/
theorem final_flush_failure_swallowed_counterexample :
    (run_uploader [UpEvent.item ⟨"a", "a", false⟩ 10 false true] false).pushAttempts = 1
    ∧ (run_uploader [UpEvent.item ⟨"a", "a", false⟩ 10 false true] false).errors = []
    ∧ backup_run_outcome [UpEvent.item ⟨"a", "a", false⟩ 10 false true] false
        = (none, true) := by
  decide

/-- C6 (amended): after an item is copied into the working tree, a push is
attempted exactly when the accumulated batch (including the new item) has
reached 20 items, or `now - last_push_time ≥ 30`, or the completion flag is
set; since `last_push_time` is initialised to `0` (not to the run's start
time), the condition `now - 0 ≥ 30` compares the absolute clock reading
with 30, so the very first staged item of a run already triggers a push
whenever the clock reads at least 30 — the "no push during the first
30 seconds of a run" reading only holds when the run starts within 30
seconds of the clock's epoch. -/
theorem push_trigger_characterisation (s : PusherState) (it : TransferItem)
    (now : Nat) (complete : Bool) (ok : Bool) :
    ((pusher_step s (UpEvent.item it now complete ok)).1.pushAttempts
        = s.pushAttempts
            + (if should_push (s.batch.length + 1) now s.lastPush complete then 1 else 0))
    ∧ (should_push (s.batch.length + 1) now s.lastPush complete = true
        ↔ (batch_size ≤ s.batch.length + 1 ∨ push_interval ≤ now - s.lastPush
            ∨ complete = true))
    ∧ ((pusher_drain initPusherState [UpEvent.item it now false true]).1.pushAttempts
        = if push_interval ≤ now then 1 else 0) := by
  refine ⟨?_, ?_, ?_⟩
  · have hlen : (s.batch ++ [it.rel]).length = s.batch.length + 1 := by
      simp
    dsimp only [pusher_step]
    rw [hlen]
    by_cases hp : should_push (s.batch.length + 1) now s.lastPush complete
    · rw [hp]
      cases ok <;> rfl
    · rw [Bool.not_eq_true] at hp
      rw [hp]
      rfl
  · rw [should_push_iff]
    constructor
    · rintro (h | ⟨h, _⟩ | h)
      · exact Or.inl h
      · exact Or.inr (Or.inl h)
      · exact Or.inr (Or.inr h)
    · rintro (h | h | h)
      · exact Or.inl h
      · exact Or.inr (Or.inl ⟨h, by omega⟩)
      · exact Or.inr (Or.inr h)
  · rw [pusher_drain]
    dsimp only [pusher_step, initPusherState]
    simp only [List.nil_append, List.length_cons, List.length_nil, Nat.zero_add]
    by_cases hn : push_interval ≤ now
    · have hn30 : (30 : Nat) ≤ now := hn
      have hsp : should_push 1 now 0 false = true := by
        simp [should_push, batch_size, push_interval]
        omega
      rw [hsp, if_pos hn]
      rfl
    · have hn30 : ¬ (30 : Nat) ≤ now := hn
      have hsp : should_push 1 now 0 false = false := by
        simp [should_push, batch_size, push_interval]
        omega
      rw [hsp, if_neg hn]
      rfl

/-- Counterexample to C6 as stated: a run whose first event is one item
dequeued at clock reading 1000 (a realistic `time.time()` value, so the run
is in its first second), with fewer than 20 items staged and completion not
signalled.  The claim predicts no push attempt, but because
`last_push_time = 0` the interval condition `1000 - 0 >= 30` already holds
and a push is attempted (and, succeeding, clears the batch). -/
theorem first_item_push_counterexample :
    (pusher_drain initPusherState
        [UpEvent.item ⟨"a", "a", false⟩ 1000 false true]).1.pushAttempts = 1
    ∧ (pusher_drain initPusherState
        [UpEvent.item ⟨"a", "a", false⟩ 1000 false true]).1.batch = []
    ∧ (pusher_drain initPusherState
        [UpEvent.item ⟨"a", "a", false⟩ 1000 false true]).1.uploaded = 1 := by
  decide

/-- C7 (amended): the uploader thread never deletes any source chunk file —
the `is_temp` flag of a dequeued transfer item is unpacked but unused — so
no per-item deletion happens after staging and pushing; instead the whole
temporary chunk area is removed only when the run finishes with an empty
`upload_error` list, and whenever an upload error was recorded the
`BackupError` is raised first and the temporary chunk area remains on disk
for diagnosis. -/
theorem chunk_files_retention (events : List UpEvent) (finalOk : Bool) :
    (run_uploader events finalOk).deletedSources = []
    ∧ ((run_uploader events finalOk).errors ≠ [] →
        backup_run_outcome events finalOk
          = (some ((run_uploader events finalOk).errors.headD ""), false))
    ∧ ((run_uploader events finalOk).errors = [] →
        backup_run_outcome events finalOk = (none, true)) := by
  refine ⟨?_, ?_, ?_⟩
  · rw [run_uploader, final_flush_deletedSources, pusher_drain_deletedSources]
    rfl
  · intro hne
    rw [backup_run_outcome]
    rcases herr : (run_uploader events finalOk).errors with _ | ⟨e, rest⟩
    · exact absurd herr hne
    · rfl
  · intro he
    rw [backup_run_outcome, he]

/-- Witness for C7: a failing mandatory push (clock 40, so the interval
trigger fires on the first item) leaves the error recorded and the chunk
area retained; the same trace with a succeeding push ends with no error and
the chunk area removed; in both runs the thread deleted no source file. -/
theorem chunk_files_retention_witness :
    (run_uploader [UpEvent.item ⟨"c", "c", true⟩ 40 false false] false).deletedSources = []
    ∧ backup_run_outcome [UpEvent.item ⟨"c", "c", true⟩ 40 false false] false
        = (some "Git push failed", false)
    ∧ backup_run_outcome [UpEvent.item ⟨"c", "c", true⟩ 40 false true] true
        = (none, true) := by
  have h1 := chunk_files_retention [UpEvent.item ⟨"c", "c", true⟩ 40 false false] false
  have h2 := chunk_files_retention [UpEvent.item ⟨"c", "c", true⟩ 40 false true] true
  refine ⟨h1.1, ?_, h2.2.2 (by decide)⟩
  have hout := h1.2.1 (by decide)
  have hhead : (run_uploader [UpEvent.item ⟨"c", "c", true⟩ 40 false false] false).errors.headD ""
      = "Git push failed" := by decide
  rw [hhead] at hout
  exact hout

/-- Counterexample to C7 as stated: a transfer item whose transient-chunk
flag is set is staged and successfully pushed (one push attempt, no errors,
batch cleared), yet the uploader deletes nothing — the source chunk file is
still on disk after the successful push of its item. -/
theorem transient_chunk_not_deleted_counterexample :
    (pusher_drain initPusherState
        [UpEvent.item ⟨"big.bin.part001", "big.bin.part001", true⟩ 40 false true]).1.pushAttempts
        = 1
    ∧ (pusher_drain initPusherState
        [UpEvent.item ⟨"big.bin.part001", "big.bin.part001", true⟩ 40 false true]).1.errors = []
    ∧ (pusher_drain initPusherState
        [UpEvent.item ⟨"big.bin.part001", "big.bin.part001", true⟩ 40 false true]).1.deletedSources
        = [] := by
  decide

/-! ## Folder-scan skip decision (backup.py lines 627-653) and the
existing-files listing (backup.py lines 73-119).

`get_file_size_mb` (backup.py lines 150-153) divides the byte count by
1024*1024; the Python float division by this power of two is exact for all
file sizes below 2^53 bytes, so it is modelled with exact rational
arithmetic.  For every discovered file the scan asks only whether a name is
in the existing-files set: `<name>.part001` for files over `CHUNK_SIZE_MB`,
the file's own name otherwise. -/

/-- backup.py lines 150-153: file size in MB. -/
def get_file_size_mb (sizeBytes : Nat) : ℚ := (sizeBytes : ℚ) / (1024 * 1024)

/-- backup.py lines 639-651: the skip decision for one discovered file,
given its leaf name, its size in bytes and the existing-files listing. -/
def should_skip_file (name : String) (sizeBytes : Nat) (existing : List String) : Bool :=
  if (CHUNK_SIZE_MB : ℚ) < get_file_size_mb sizeBytes then
    existing.contains (name ++ ".part001")
  else
    existing.contains name

/-- backup.py lines 627-653: the folder scan over the discovered files
(leaf name, size in bytes), partitioning them into the files to upload
(`all_files`) and `skipped_files`, in discovery order. -/
def scan_files (files : List (String × Nat)) (existing : List String) :
    List (String × Nat) × List (String × Nat) :=
  match files with
  | [] => ([], [])
  | f :: rest =>
    let r := scan_files rest existing
    if should_skip_file f.1 f.2 existing then (r.1, f :: r.2)
    else (f :: r.1, r.2)

theorem size_mb_gt_iff (sizeBytes : Nat) :
    ((CHUNK_SIZE_MB : ℚ) < get_file_size_mb sizeBytes) ↔ CHUNK_SIZE_BYTES < sizeBytes := by
  rw [get_file_size_mb, lt_div_iff₀ (by norm_num)]
  have e : ((CHUNK_SIZE_MB : Nat) : ℚ) * (1024 * 1024) = ((CHUNK_SIZE_BYTES : Nat) : ℚ) := by
    norm_num [CHUNK_SIZE_MB, CHUNK_SIZE_BYTES]
  rw [e]
  exact Nat.cast_lt

theorem scan_files_eq (files : List (String × Nat)) (existing : List String) :
    scan_files files existing
      = (files.filter (fun f => ! should_skip_file f.1 f.2 existing),
         files.filter (fun f => should_skip_file f.1 f.2 existing)) := by
  induction files with
  | nil => rfl
  | cons f rest ih =>
    rw [scan_files, ih]
    by_cases hf : should_skip_file f.1 f.2 existing
    · simp [List.filter_cons, hf]
    · simp [List.filter_cons, hf]

/-- C8: when backing up a folder, a discovered file lands in the skipped
list exactly when its name-only check succeeds, and in the upload list
otherwise; the check is: for a file strictly larger than 50 MB membership
of `<name>.part001` in the existing-files set, for a file of at most 50 MB
membership of the file's own name — no size or content comparison against
the remote is involved, so a changed file with an unchanged name is treated
as already backed up. -/
theorem folder_scan_skip_by_name (files : List (String × Nat)) (existing : List String) :
    (scan_files files existing).1
        = files.filter (fun f => ! should_skip_file f.1 f.2 existing)
    ∧ (scan_files files existing).2
        = files.filter (fun f => should_skip_file f.1 f.2 existing)
    ∧ (∀ (name : String) (sizeBytes : Nat),
        should_skip_file name sizeBytes existing = true ↔
          (if CHUNK_SIZE_BYTES < sizeBytes then (name ++ ".part001") ∈ existing
           else name ∈ existing)) := by
  refine ⟨by rw [scan_files_eq], by rw [scan_files_eq], ?_⟩
  intro name sizeBytes
  rw [should_skip_file]
  by_cases hb : CHUNK_SIZE_BYTES < sizeBytes
  · rw [if_pos ((size_mb_gt_iff sizeBytes).mpr hb), if_pos hb]
    simp
  · rw [if_neg (fun hq => hb ((size_mb_gt_iff sizeBytes).mp hq)), if_neg hb]
    simp

/-! ## The existing-files listing (backup.py lines 73-119).

`get_existing_files_in_repo` runs `gh api .../contents/<folder> --paginate`.
Every failure path returns the empty set: a non-zero exit code (line 97-99),
a JSON decoding error (lines 112-113 leave the set empty) and any raised
exception (lines 117-119).  On success it collects the `name` of every item
whose `type` is `"file"`. -/

/-- The possible outcomes of the `gh api` call and JSON parse, as seen by
`get_existing_files_in_repo`. -/
inductive ApiOutcome where
  | exitNonzero : ApiOutcome
  | invalidJson : ApiOutcome
  | raisedException : ApiOutcome
  | ok : List (String × String) → ApiOutcome

/-- backup.py lines 73-119: the set of existing file names in the repo
folder; every failure mode yields the empty set, a successful listing
yields the names of the items of type `"file"`. -/
def get_existing_files_in_repo : ApiOutcome → List String
  | ApiOutcome.exitNonzero => []
  | ApiOutcome.invalidJson => []
  | ApiOutcome.raisedException => []
  | ApiOutcome.ok items => (items.filter (fun it => it.1 == "file")).map Prod.snd

theorem should_skip_file_empty (name : String) (sizeBytes : Nat) :
    should_skip_file name sizeBytes [] = false := by
  rw [should_skip_file]
  split <;> rfl

/-- C10: `get_existing_files_in_repo` returns the empty set whenever the
remote listing fails in any way — non-zero `gh` exit code, invalid JSON
response, or a raised exception — and with an empty existing-files set the
folder scan skips nothing: every discovered file is (re-)uploaded, so a
listing failure can only cause re-upload, never a wrong skip. -/
theorem listing_failure_causes_reupload_only :
    get_existing_files_in_repo ApiOutcome.exitNonzero = []
    ∧ get_existing_files_in_repo ApiOutcome.invalidJson = []
    ∧ get_existing_files_in_repo ApiOutcome.raisedException = []
    ∧ ∀ files : List (String × Nat),
        (scan_files files []).2 = [] ∧ (scan_files files []).1 = files := by
  refine ⟨rfl, rfl, rfl, ?_⟩
  intro files
  rw [scan_files_eq]
  constructor
  · simp [should_skip_file_empty]
  · simp [should_skip_file_empty]

/-! ## Restore destination collision handling (restore.py lines 243-277).

Without collision the destination folder name is the last repo segment plus
the optional user suffix.  If that path exists, the loop
`counter = 1; while final_dest.exists(): test_name = f"{last}{suffix}_{counter}";
counter += 1` walks the candidates `<name>{suffix}_1`, `_2`, ... and stops
at the first free one.  The loop is embedded as the least free counter; the
hypothesis that some candidate is free corresponds to the finiteness of any
real file system (without it the Python loop would not terminate either). -/

/-- restore.py lines 248-253: the destination folder name before collision
handling — last repo segment plus the user-supplied suffix, if any. -/
def initial_dest_name (lastPart : String) (suffix : Option String) : String :=
  match suffix with
  | some suf => lastPart ++ suf
  | none => lastPart

/-- restore.py lines 266-269: the candidate folder name tried for a given
counter value. -/
def candidate_name (lastPart : String) (suffix : Option String) (counter : Nat) : String :=
  match suffix with
  | some suf => lastPart ++ suf ++ "_" ++ toString counter
  | none => lastPart ++ "_" ++ toString counter

/-- restore.py lines 260-272: the final destination name the extracted
folder is moved to. -/
def resolve_dest_name (fsExists : String → Bool) (lastPart : String)
    (suffix : Option String)
    (h : ∃ n, fsExists (candidate_name lastPart suffix (n + 1)) = false) : String :=
  if fsExists (initial_dest_name lastPart suffix) then
    candidate_name lastPart suffix (Nat.find h + 1)
  else initial_dest_name lastPart suffix

/-- C9: on restore, if the resolved destination already exists the final
destination appends a numeric disambiguator after any user-supplied suffix,
starting at `_1` and incrementing until a free name is found: the chosen
name never collides with an existing path (the pre-existing destination is
never overwritten), a free initial name is kept unchanged, and on collision
the result is the candidate with the least counter `k ≥ 1` whose name is
free — every candidate with a smaller counter exists. -/
theorem restore_collision_resolution (fsExists : String → Bool) (lastPart : String)
    (suffix : Option String)
    (h : ∃ n, fsExists (candidate_name lastPart suffix (n + 1)) = false) :
    fsExists (resolve_dest_name fsExists lastPart suffix h) = false
    ∧ (fsExists (initial_dest_name lastPart suffix) = false →
        resolve_dest_name fsExists lastPart suffix h = initial_dest_name lastPart suffix)
    ∧ (fsExists (initial_dest_name lastPart suffix) = true →
        ∃ k, 1 ≤ k
          ∧ resolve_dest_name fsExists lastPart suffix h = candidate_name lastPart suffix k
          ∧ ∀ j, 1 ≤ j → j < k → fsExists (candidate_name lastPart suffix j) = true) := by
  refine ⟨?_, ?_, ?_⟩
  · rw [resolve_dest_name]
    split
    · exact Nat.find_spec h
    · next hno =>
      rw [Bool.not_eq_true] at hno
      exact hno
  · intro h0
    rw [resolve_dest_name, if_neg (by simp [h0])]
  · intro h1
    refine ⟨Nat.find h + 1, by omega, ?_, ?_⟩
    · rw [resolve_dest_name, if_pos h1]
    · intro j hj1 hjk
      have hmin := Nat.find_min h (show j - 1 < Nat.find h by omega)
      rw [show j - 1 + 1 = j by omega] at hmin
      rw [Bool.not_eq_false] at hmin
      exact hmin

/-- Witness for C9: the names `D` and `D_1` exist; the resolved destination
is free, and it is the least free candidate, every smaller one existing. -/
theorem restore_collision_resolution_witness :
    ((["D", "D_1"] : List String).contains
        (resolve_dest_name (fun s => (["D", "D_1"] : List String).contains s) "D" none
          ⟨1, by decide⟩)) = false
    ∧ ∃ k, 1 ≤ k
        ∧ resolve_dest_name (fun s => (["D", "D_1"] : List String).contains s) "D" none
            ⟨1, by decide⟩ = candidate_name "D" none k
        ∧ ∀ j, 1 ≤ j → j < k →
            (["D", "D_1"] : List String).contains (candidate_name "D" none j) = true := by
  have h := restore_collision_resolution
    (fun s => (["D", "D_1"] : List String).contains s) "D" none ⟨1, by decide⟩
  exact ⟨h.1, h.2.2 (by decide)⟩
